import Mathlib

/-!
Verification of the `TrustStorage` component of the SafeFolks bot
(`src/bot/safefolks_bot.py`), a JSON-file-backed ledger of groups and
trust edges.

The development has two layers:

* a *raw* layer (`Json`, `jsonGetItem`, `addTrustRaw`, `addGroupRaw`,
  `_load_data`) mirroring the Python code operating on the parsed JSON
  document, including the failure modes of subscripting
  (`KeyError` / `TypeError`);
* a *typed* layer (`Ledger`, `add_group`, `add_trust`,
  `get_group_trusts`, `get_user_trusts`) describing the same operations
  on well-shaped data, connected to the raw layer by refinement lemmas
  (`addTrustRaw_encode`, `addGroupRaw_encode`).

Timestamps (`datetime.now().isoformat()`) are modelled as an explicit
`now : String` argument to each mutating operation.  The disk is
modelled as `Option (Option Json)`: `none` = file does not exist,
`some none` = file exists but is not valid JSON, `some (some j)` = file
exists and parses to `j`.  (`json.dump` followed by `json.load`
round-trips the documents produced here, so a successful save is
modelled as storing the document itself.)
-/

namespace TrustStorage

/-- A JSON value, as produced by Python's `json.load`, restricted to the
constructors this data file uses (strings, integers, arrays, objects). -/
inductive Json where
  | str (s : String)
  | int (n : Int)
  | arr (elems : List Json)
  | obj (fields : List (String × Json))

/-- Key lookup in a JSON object's field list (Python `dict` lookup:
keys are unique in a real `dict`, the first match is returned). -/
def lookupField : List (String × Json) → String → Option Json
  | [], _ => none
  | (k', v) :: rest, k => if k' == k then some v else lookupField rest k

/-- Python `d[k]` on a JSON value: a `KeyError` on a missing key of an
object, a `TypeError` when the value is not an object. -/
def jsonGetItem : Json → String → Except String Json
  | .obj fs, k =>
    match lookupField fs k with
    | some v => .ok v
    | none => .error ("KeyError: " ++ k)
  | _, k => .error ("TypeError: value not subscriptable by " ++ k)

/-- Python `d[k] = v` on an object's field list: replaces the value at
an existing key in place (preserving insertion order), appends otherwise. -/
def setField : List (String × Json) → String → Json → List (String × Json)
  | [], k, v => [(k, v)]
  | (k', v') :: rest, k, v =>
    if k' == k then (k, v) :: rest else (k', v') :: setField rest k v

/-- Python `x == n` between a decoded JSON value and an `int`: true
exactly when the value is that integer (comparison with a value of a
different type is `False`, not an error). -/
def jsonEqInt : Json → Int → Bool
  | .int m, n => m == n
  | _, _ => false

/-- A `Group` record as stored under `data["groups"][str(group_id)]`
(`safefolks_bot.py`, `add_group`). -/
structure Group where
  name : String
  owner_id : Int
  owner_name : String
  added_at : String
deriving DecidableEq, Repr

/-- A trust record as appended to `data["trusts"]`
(`safefolks_bot.py`, `add_trust`). -/
structure TrustEdge where
  group_id : Int
  truster_id : Int
  truster_name : String
  trustee_id : Int
  trustee_name : String
  created_at : String
deriving DecidableEq, Repr

/-- The in-memory ledger: the `"groups"` object (an insertion-ordered
association list keyed by the stringified group id, as a Python `dict`)
and the `"trusts"` array. -/
structure Ledger where
  groups : List (String × Group)
  trusts : List TrustEdge
deriving DecidableEq, Repr

/-- The empty ledger `{"groups": {}, "trusts": []}`. -/
def emptyLedger : Ledger := ⟨[], []⟩

/-- Serialization of a `Group` to its JSON object
(the dict literal in `add_group`). -/
def encodeGroup (g : Group) : Json :=
  .obj [("name", .str g.name), ("owner_id", .int g.owner_id),
        ("owner_name", .str g.owner_name), ("added_at", .str g.added_at)]

/-- Serialization of a trust record to its JSON object
(the `trust_record` dict literal in `add_trust`). -/
def encodeEdge (t : TrustEdge) : Json :=
  .obj [("group_id", .int t.group_id), ("truster_id", .int t.truster_id),
        ("truster_name", .str t.truster_name), ("trustee_id", .int t.trustee_id),
        ("trustee_name", .str t.trustee_name), ("created_at", .str t.created_at)]

/-- Serialization of the whole ledger, the document `json.dump` writes. -/
def encodeLedger (l : Ledger) : Json :=
  .obj [("groups", .obj (l.groups.map (fun kv => (kv.1, encodeGroup kv.2)))),
        ("trusts", .arr (l.trusts.map encodeEdge))]

/-- The literal `{"groups": {}, "trusts": []}` returned by `_load_data`
when the file is absent or unreadable. -/
def emptyData : Json := .obj [("groups", .obj []), ("trusts", .arr [])]

/-- The backing file: absent, present but not valid JSON, or present
and parsing to a document. -/
abbrev Disk : Type := Option (Option Json)

/-- `TrustStorage._load_data`: return the parsed file if it exists and
parses, otherwise fall back to `{"groups": {}, "trusts": []}`.  No shape
validation is performed on a successfully parsed document. -/
def _load_data : Disk → Json
  | some (some j) => j
  | some none => emptyData
  | none => emptyData

/-- `TrustStorage._save_data` (on the success path): the file now holds
a document that parses back to the in-memory data. -/
def _save_data (data : Json) : Disk := some (some data)

/-- Python dict assignment `groups[str(group_id)] = record` at the typed
level: replace in place if the key exists, append otherwise. -/
def dictInsert (k : String) (v : Group) : List (String × Group) → List (String × Group)
  | [] => [(k, v)]
  | (k', v') :: rest =>
    if k' == k then (k, v) :: rest else (k', v') :: dictInsert k v rest

/-- `TrustStorage.add_group` on the in-memory ledger: store the group
record under the stringified id, overwriting any previous record. -/
def add_group (l : Ledger) (group_id : Int) (group_name : String)
    (owner_id : Int) (owner_name : String) (now : String) : Ledger :=
  let record : Group := ⟨group_name, owner_id, owner_name, now⟩
  { l with groups := dictInsert (toString group_id) record l.groups }

/-- The natural-key comparison in `add_trust`'s scan:
`trust["group_id"] == group_id and trust["truster_id"] == truster_id
and trust["trustee_id"] == trustee_id`. -/
def trustMatches (t : TrustEdge) (group_id truster_id trustee_id : Int) : Bool :=
  t.group_id == group_id && t.truster_id == truster_id && t.trustee_id == trustee_id

/-- `TrustStorage.add_trust` on the in-memory ledger.  Returns the new
ledger and whether `_save_data` was called: the scan over all existing
trusts returns early (no append, no save) on a natural-key match,
otherwise the record is appended and saved. -/
def add_trust (l : Ledger) (group_id truster_id : Int) (truster_name : String)
    (trustee_id : Int) (trustee_name : String) (now : String) : Ledger × Bool :=
  if l.trusts.any (fun t => trustMatches t group_id truster_id trustee_id) then
    (l, false)
  else
    ({ l with trusts := l.trusts ++
        [⟨group_id, truster_id, truster_name, trustee_id, trustee_name, now⟩] },
     true)

/-- `TrustStorage.get_group_trusts`: the trusts whose `group_id` matches. -/
def get_group_trusts (l : Ledger) (group_id : Int) : List TrustEdge :=
  l.trusts.filter (fun t => t.group_id == group_id)

/-- `TrustStorage.get_user_trusts`: the trusts whose `truster_id` matches. -/
def get_user_trusts (l : Ledger) (user_id : Int) : List TrustEdge :=
  l.trusts.filter (fun t => t.truster_id == user_id)

/-- One mutating call on a `TrustStorage` instance. -/
inductive Op where
  | addGroup (group_id : Int) (group_name : String) (owner_id : Int)
      (owner_name : String) (now : String)
  | addTrust (group_id truster_id : Int) (truster_name : String)
      (trustee_id : Int) (trustee_name : String) (now : String)

/-- A store instance: its in-memory ledger and the backing file. -/
abbrev Store : Type := Ledger × Disk

/-- One mutating call on the store: `add_group` always rewrites the
file, `add_trust` rewrites it exactly when a record was appended. -/
def stepStore : Store → Op → Store
  | (l, _), .addGroup gid gname oid oname now =>
    let l' := add_group l gid gname oid oname now
    (l', _save_data (encodeLedger l'))
  | (l, d), .addTrust g a an b bn now =>
    match add_trust l g a an b bn now with
    | (l', true) => (l', _save_data (encodeLedger l'))
    | (l', false) => (l', d)

/-- A sequence of mutating calls on the store. -/
def runOps (s : Store) : List Op → Store
  | [] => s
  | op :: ops => runOps (stepStore s op) ops

/-- The early-returning scan in `add_trust` at the raw level:
`for trust in trusts: if trust["group_id"] == group_id and ...: return`.
Python's `and` short-circuits, so a later key is only subscripted when
the earlier comparisons succeeded; a missing key or a non-object element
raises. -/
def scanTrusts (group_id truster_id trustee_id : Int) : List Json → Except String Bool
  | [] => .ok false
  | t :: rest => do
    let gv ← jsonGetItem t "group_id"
    if jsonEqInt gv group_id then do
      let av ← jsonGetItem t "truster_id"
      if jsonEqInt av truster_id then do
        let bv ← jsonGetItem t "trustee_id"
        if jsonEqInt bv trustee_id then pure true
        else scanTrusts group_id truster_id trustee_id rest
      else scanTrusts group_id truster_id trustee_id rest
    else scanTrusts group_id truster_id trustee_id rest

/-- `TrustStorage.add_trust` on the raw document `self.data`, as Python
executes it: build `trust_record`, scan `self.data["trusts"]`, return
unchanged on a match, otherwise append and save.  Returns the new
document and whether `_save_data` was called; `.error` marks a raised
exception (`KeyError` when `"trusts"` is missing, `TypeError`-like
failures when the document or the `"trusts"` value has the wrong type —
the model collapses Python's distinct iteration/append failures on a
non-list `"trusts"` value into one error). -/
def addTrustRaw (data : Json) (group_id truster_id : Int) (truster_name : String)
    (trustee_id : Int) (trustee_name : String) (now : String) :
    Except String (Json × Bool) := do
  let record : Json := .obj [("group_id", .int group_id),
    ("truster_id", .int truster_id), ("truster_name", .str truster_name),
    ("trustee_id", .int trustee_id), ("trustee_name", .str trustee_name),
    ("created_at", .str now)]
  let tv ← jsonGetItem data "trusts"
  match data, tv with
  | .obj fs, .arr ts => do
    let found ← scanTrusts group_id truster_id trustee_id ts
    if found then pure (data, false)
    else pure (.obj (setField fs "trusts" (.arr (ts ++ [record]))), true)
  | _, _ => .error "TypeError: trusts value is not a list"

/-- `TrustStorage.add_group` on the raw document:
`self.data["groups"][group_id_str] = record` followed by a save.
Subscripting raises when `"groups"` is missing or its value is not an
object. -/
def addGroupRaw (data : Json) (group_id : Int) (group_name : String)
    (owner_id : Int) (owner_name : String) (now : String) :
    Except String (Json × Bool) := do
  let record : Json := .obj [("name", .str group_name),
    ("owner_id", .int owner_id), ("owner_name", .str owner_name),
    ("added_at", .str now)]
  let gv ← jsonGetItem data "groups"
  match data, gv with
  | .obj fs, .obj gs =>
    pure (.obj (setField fs "groups" (.obj (setField gs (toString group_id) record))), true)
  | _, _ => .error "TypeError: groups value is not a dict"

/-- Shape check for a serialized `Group` object. -/
def decodeGroup : Json → Option Group
  | .obj fs =>
    match lookupField fs "name", lookupField fs "owner_id",
          lookupField fs "owner_name", lookupField fs "added_at" with
    | some (.str n), some (.int oid), some (.str onm), some (.str ad) =>
      some ⟨n, oid, onm, ad⟩
    | _, _, _, _ => none
  | _ => none

/-- Shape check for a serialized trust record. -/
def decodeEdge : Json → Option TrustEdge
  | .obj fs =>
    match lookupField fs "group_id", lookupField fs "truster_id",
          lookupField fs "truster_name", lookupField fs "trustee_id",
          lookupField fs "trustee_name", lookupField fs "created_at" with
    | some (.int g), some (.int a), some (.str an), some (.int b),
        some (.str bn), some (.str c) =>
      some ⟨g, a, an, b, bn, c⟩
    | _, _, _, _, _, _ => none
  | _ => none

/-- Shape check for the `"groups"` object's field list. -/
def decodeGroups : List (String × Json) → Option (List (String × Group))
  | [] => some []
  | (k, v) :: rest =>
    match decodeGroup v, decodeGroups rest with
    | some g, some gs => some ((k, g) :: gs)
    | _, _ => none

/-- Shape check for the `"trusts"` array. -/
def decodeEdges : List Json → Option (List TrustEdge)
  | [] => some []
  | v :: rest =>
    match decodeEdge v, decodeEdges rest with
    | some t, some ts => some (t :: ts)
    | _, _ => none

/-- Shape check for a whole document: a document \x7b"groups": object,
"trusts": array\x7d whose members decode, i.e. "valid structured data
matching the Ledger shape". -/
def decodeLedger (j : Json) : Option Ledger :=
  match j with
  | .obj fs =>
    match lookupField fs "groups", lookupField fs "trusts" with
    | some (.obj gs), some (.arr ts) =>
      match decodeGroups gs, decodeEdges ts with
      | some gs', some ts' => some ⟨gs', ts'⟩
      | _, _ => none
    | _, _ => none
  | _ => none

/-- The on-disk document matches the in-memory ledger (every save has
succeeded and nothing else wrote the file). -/
def inSync (l : Ledger) (d : Disk) : Prop := _load_data d = encodeLedger l

/-- Keys of the in-memory `"groups"` object. -/
def groupKeys (l : Ledger) : List String := l.groups.map Prod.fst

/-- Python `self.data["groups"].get(key)` at the typed level. -/
def lookupGroup : List (String × Group) → String → Option Group
  | [], _ => none
  | (k', v) :: rest, k => if k' == k then some v else lookupGroup rest k

theorem decodeGroup_encode (g : Group) : decodeGroup (encodeGroup g) = some g := rfl

theorem decodeEdge_encode (t : TrustEdge) : decodeEdge (encodeEdge t) = some t := rfl

theorem decodeGroups_encode (gs : List (String × Group)) :
    decodeGroups (gs.map (fun kv => (kv.1, encodeGroup kv.2))) = some gs := by
  induction gs with
  | nil => rfl
  | cons kv rest ih => simp [decodeGroups, decodeGroup_encode, ih]

theorem decodeEdges_encode (ts : List TrustEdge) :
    decodeEdges (ts.map encodeEdge) = some ts := by
  induction ts with
  | nil => rfl
  | cons t rest ih => simp [decodeEdges, decodeEdge_encode, ih]

theorem decodeLedger_encode (l : Ledger) : decodeLedger (encodeLedger l) = some l := by
  simp [decodeLedger, encodeLedger, lookupField, decodeGroups_encode, decodeEdges_encode]

theorem bindOk {α β : Type} (x : α) (f : α → Except String β) :
    (Except.ok x >>= f) = f x := rfl

theorem pureOk {α : Type} (x : α) : (pure x : Except String α) = Except.ok x := rfl

theorem jsonEqInt_int (m n : Int) : jsonEqInt (Json.int m) n = (m == n) := rfl

theorem scanTrusts_encode (g a b : Int) (ts : List TrustEdge) :
    scanTrusts g a b (ts.map encodeEdge) =
      Except.ok (ts.any (fun t => trustMatches t g a b)) := by
  induction ts with
  | nil => rfl
  | cons t rest ih =>
    show scanTrusts g a b (encodeEdge t :: rest.map encodeEdge) = _
    rw [scanTrusts]
    have hg : jsonGetItem (encodeEdge t) "group_id" = .ok (.int t.group_id) := rfl
    have ha : jsonGetItem (encodeEdge t) "truster_id" = .ok (.int t.truster_id) := rfl
    have hb : jsonGetItem (encodeEdge t) "trustee_id" = .ok (.int t.trustee_id) := rfl
    simp only [hg, ha, hb, bindOk, pureOk, jsonEqInt_int]
    by_cases h1 : t.group_id == g <;> by_cases h2 : t.truster_id == a <;>
      by_cases h3 : t.trustee_id == b <;>
      simp [h1, h2, h3, trustMatches, ih, List.any_cons]

theorem add_trust_groups (l : Ledger) (g a : Int) (an : String) (b : Int)
    (bn nw : String) : (add_trust l g a an b bn nw).1.groups = l.groups := by
  rw [add_trust]
  by_cases h : l.trusts.any (fun t => trustMatches t g a b) <;> simp [h]

theorem add_trust_of_not_saved (l : Ledger) (g a : Int) (an : String) (b : Int)
    (bn nw : String) (h : (add_trust l g a an b bn nw).2 = false) :
    (add_trust l g a an b bn nw).1 = l := by
  rw [add_trust] at h ⊢
  by_cases hany : l.trusts.any (fun t => trustMatches t g a b) <;> simp [hany] at h ⊢

theorem addTrustRaw_encode (l : Ledger) (g a : Int) (an : String) (b : Int)
    (bn nw : String) :
    addTrustRaw (encodeLedger l) g a an b bn nw =
      Except.ok (encodeLedger (add_trust l g a an b bn nw).1,
                 (add_trust l g a an b bn nw).2) := by
  have htv : jsonGetItem (encodeLedger l) "trusts" =
      .ok (.arr (l.trusts.map encodeEdge)) := rfl
  rw [addTrustRaw]
  simp only [htv, bindOk]
  show (do
      let found ← scanTrusts g a b (l.trusts.map encodeEdge)
      if found then pure (encodeLedger l, false)
      else pure (Json.obj (setField
        [("groups", .obj (l.groups.map (fun kv => (kv.1, encodeGroup kv.2)))),
         ("trusts", .arr (l.trusts.map encodeEdge))] "trusts"
        (.arr (l.trusts.map encodeEdge ++ [encodeEdge ⟨g, a, an, b, bn, nw⟩]))),
        true) : Except String (Json × Bool)) = _
  rw [scanTrusts_encode, bindOk]
  by_cases h : l.trusts.any (fun t => trustMatches t g a b)
  · simp [h, add_trust, pureOk]
  · simp only [h, if_neg, Bool.false_eq_true, not_false_eq_true, if_false, pureOk]
    rw [add_trust, if_neg (by simp [h])]
    simp [encodeLedger, setField]

theorem setField_map_dictInsert (k : String) (v : Group)
    (gs : List (String × Group)) :
    setField (gs.map (fun kv => (kv.1, encodeGroup kv.2))) k (encodeGroup v) =
      (dictInsert k v gs).map (fun kv => (kv.1, encodeGroup kv.2)) := by
  induction gs with
  | nil => rfl
  | cons kv rest ih =>
    rw [List.map_cons, setField, dictInsert]
    by_cases h : kv.1 == k <;> simp [h, ih]

theorem addGroupRaw_encode (l : Ledger) (gid : Int) (gn : String) (oid : Int)
    (onm nw : String) :
    addGroupRaw (encodeLedger l) gid gn oid onm nw =
      Except.ok (encodeLedger (add_group l gid gn oid onm nw), true) := by
  have hgv : jsonGetItem (encodeLedger l) "groups" =
      .ok (.obj (l.groups.map (fun kv => (kv.1, encodeGroup kv.2)))) := rfl
  rw [addGroupRaw]
  simp only [hgv, bindOk]
  show (pure (Json.obj (setField
      [("groups", .obj (l.groups.map (fun kv => (kv.1, encodeGroup kv.2)))),
       ("trusts", .arr (l.trusts.map encodeEdge))] "groups"
      (.obj (setField (l.groups.map (fun kv => (kv.1, encodeGroup kv.2)))
        (toString gid) (encodeGroup ⟨gn, oid, onm, nw⟩)))), true) :
      Except String (Json × Bool)) = _
  rw [setField_map_dictInsert]
  simp [pureOk, encodeLedger, add_group, setField]

theorem stepStore_inSync (l : Ledger) (d : Disk) (op : Op) (h : inSync l d) :
    inSync (stepStore (l, d) op).1 (stepStore (l, d) op).2 := by
  cases op with
  | addGroup gid gn oid onm nw => rfl
  | addTrust g a an b bn nw =>
    rw [stepStore]
    rcases hsave : add_trust l g a an b bn nw with ⟨l2, saved⟩
    cases saved with
    | true => simp [inSync, _load_data, _save_data]
    | false =>
      have hl : l2 = l := by
        have h2 := add_trust_of_not_saved l g a an b bn nw (by rw [hsave])
        rw [hsave] at h2; exact h2
      simp [hl, h]

theorem runOps_inSync (ops : List Op) (l : Ledger) (d : Disk) (h : inSync l d) :
    inSync (runOps (l, d) ops).1 (runOps (l, d) ops).2 := by
  induction ops generalizing l d with
  | nil => exact h
  | cons op rest ih =>
    rw [runOps]
    rcases hstep : stepStore (l, d) op with ⟨l2, d2⟩
    have h2 := stepStore_inSync l d op h
    rw [hstep] at h2
    exact ih l2 d2 h2

theorem mem_dictInsert (kv : String × Group) (k : String) (v : Group)
    (gs : List (String × Group)) (h : kv ∈ dictInsert k v gs) :
    kv ∈ gs ∨ kv = (k, v) := by
  induction gs with
  | nil =>
    rw [dictInsert] at h
    right; simpa using h
  | cons hd rest ih =>
    rw [dictInsert] at h
    by_cases hk : hd.1 == k
    · rcases hd with ⟨k2, v2⟩
      simp only [hk, if_true] at h
      rcases List.mem_cons.mp h with h1 | h1
      · right; exact h1
      · left; exact List.mem_cons_of_mem _ h1
    · rcases hd with ⟨k2, v2⟩
      simp only [hk, if_false, Bool.false_eq_true] at h
      rcases List.mem_cons.mp h with h1 | h1
      · left; exact h1 ▸ List.mem_cons_self _ _
      · rcases ih h1 with h2 | h2
        · left; exact List.mem_cons_of_mem _ h2
        · right; exact h2

theorem keys_mem_dictInsert (x k : String) (v : Group) (gs : List (String × Group))
    (h : x ∈ (dictInsert k v gs).map Prod.fst) :
    x ∈ gs.map Prod.fst ∨ x = k := by
  rcases List.mem_map.mp h with ⟨kv, hmem, hx⟩
  rcases mem_dictInsert kv k v gs hmem with h1 | h1
  · left; exact hx ▸ List.mem_map_of_mem Prod.fst h1
  · right; rw [← hx, h1]

theorem dictInsert_keys_nodup (k : String) (v : Group) (gs : List (String × Group))
    (h : (gs.map Prod.fst).Nodup) : ((dictInsert k v gs).map Prod.fst).Nodup := by
  induction gs with
  | nil => simp [dictInsert]
  | cons hd rest ih =>
    rcases hd with ⟨k2, v2⟩
    rw [List.map_cons, List.nodup_cons] at h
    rw [dictInsert]
    by_cases hk : k2 == k
    · rw [if_pos hk, List.map_cons, List.nodup_cons]
      exact ⟨(eq_of_beq hk) ▸ h.1, h.2⟩
    · rw [if_neg (by simpa using hk), List.map_cons, List.nodup_cons]
      refine ⟨fun hmem => ?_, ih h.2⟩
      rcases keys_mem_dictInsert k2 k v rest hmem with h1 | h1
      · exact h.1 h1
      · exact hk (beq_iff_eq.mpr h1)

theorem filter_key_not_mem (k : String) (gs : List (String × Group))
    (h : k ∉ gs.map Prod.fst) :
    gs.filter (fun kv => kv.1 == k) = [] := by
  induction gs with
  | nil => rfl
  | cons hd rest ih =>
    rw [List.map_cons, List.mem_cons] at h
    push_neg at h
    have hb : (hd.1 == k) = false := beq_eq_false_iff_ne.mpr (fun he => h.1 he.symm)
    simp only [List.filter_cons, hb, Bool.false_eq_true, if_false]
    exact ih h.2

theorem dictInsert_filter (k : String) (v : Group) (gs : List (String × Group))
    (h : (gs.map Prod.fst).Nodup) :
    (dictInsert k v gs).filter (fun kv => kv.1 == k) = [(k, v)] := by
  induction gs with
  | nil => simp [dictInsert]
  | cons hd rest ih =>
    rcases hd with ⟨k2, v2⟩
    rw [List.map_cons, List.nodup_cons] at h
    rw [dictInsert]
    by_cases hk : k2 == k
    · rw [if_pos hk, List.filter_cons, if_pos (by simp)]
      rw [filter_key_not_mem k rest ((eq_of_beq hk) ▸ h.1)]
    · rw [if_neg (by simpa using hk), List.filter_cons, if_neg (by simpa using hk)]
      exact ih h.2

theorem lookupGroup_dictInsert_ne (k k2 : String) (v : Group)
    (gs : List (String × Group)) (h : k2 ≠ k) :
    lookupGroup (dictInsert k v gs) k2 = lookupGroup gs k2 := by
  have hne : ¬ (k == k2) = true := fun hb => h (eq_of_beq hb).symm
  induction gs with
  | nil =>
    show lookupGroup [(k, v)] k2 = none
    rw [lookupGroup, if_neg hne]
    rfl
  | cons hd rest ih =>
    rcases hd with ⟨k0, v0⟩
    rw [dictInsert]
    by_cases hk : (k0 == k) = true
    · have hkk : k = k0 := (eq_of_beq hk).symm
      rw [if_pos hk, lookupGroup, lookupGroup, if_neg hne,
        if_neg (fun hb => h ((hkk.trans (eq_of_beq hb)).symm))]
    · rw [if_neg hk, lookupGroup, lookupGroup]
      by_cases h0 : (k0 == k2) = true
      · rw [if_pos h0, if_pos h0]
      · rw [if_neg h0, if_neg h0, ih]

/-- Every key of the `"groups"` object is the stringified decimal form
of some integer id. -/
def keysStringified (l : Ledger) : Prop :=
  ∀ kv ∈ l.groups, ∃ i : Int, kv.1 = toString i

theorem stepStore_fst (l : Ledger) (d : Disk) (op : Op) :
    (stepStore (l, d) op).1 = match op with
      | .addGroup gid gn oid onm nw => add_group l gid gn oid onm nw
      | .addTrust g a an b bn nw => (add_trust l g a an b bn nw).1 := by
  cases op with
  | addGroup gid gn oid onm nw => rfl
  | addTrust g a an b bn nw =>
    rw [stepStore]
    rcases hsave : add_trust l g a an b bn nw with ⟨l2, saved⟩
    cases saved <;> simp [hsave]

theorem stepStore_groups_nodup (l : Ledger) (d : Disk) (op : Op)
    (h : (l.groups.map Prod.fst).Nodup) :
    ((stepStore (l, d) op).1.groups.map Prod.fst).Nodup := by
  rw [stepStore_fst]
  cases op with
  | addGroup gid gn oid onm nw => exact dictInsert_keys_nodup _ _ _ h
  | addTrust g a an b bn nw => rw [add_trust_groups]; exact h

theorem runOps_groups_nodup (ops : List Op) (l : Ledger) (d : Disk)
    (h : (l.groups.map Prod.fst).Nodup) :
    ((runOps (l, d) ops).1.groups.map Prod.fst).Nodup := by
  induction ops generalizing l d with
  | nil => exact h
  | cons op rest ih =>
    rw [runOps]
    rcases hstep : stepStore (l, d) op with ⟨l2, d2⟩
    have h2 := stepStore_groups_nodup l d op h
    rw [hstep] at h2
    exact ih l2 d2 h2

theorem stepStore_keysStringified (l : Ledger) (d : Disk) (op : Op)
    (h : keysStringified l) : keysStringified (stepStore (l, d) op).1 := by
  rw [stepStore_fst]
  cases op with
  | addGroup gid gn oid onm nw =>
    intro kv hkv
    rcases mem_dictInsert kv (toString gid) _ l.groups hkv with h1 | h1
    · exact h kv h1
    · exact ⟨gid, by rw [h1]⟩
  | addTrust g a an b bn nw =>
    intro kv hkv
    rw [add_trust_groups] at hkv
    exact h kv hkv

theorem runOps_keysStringified (ops : List Op) (l : Ledger) (d : Disk)
    (h : keysStringified l) : keysStringified (runOps (l, d) ops).1 := by
  induction ops generalizing l d with
  | nil => exact h
  | cons op rest ih =>
    rw [runOps]
    rcases hstep : stepStore (l, d) op with ⟨l2, d2⟩
    have h2 := stepStore_keysStringified l d op h
    rw [hstep] at h2
    exact ih l2 d2 h2

theorem add_trust_found (l : Ledger) (g a : Int) (an : String) (b : Int)
    (bn nw : String) (h : ∃ t ∈ l.trusts, trustMatches t g a b) :
    add_trust l g a an b bn nw = (l, false) := by
  rw [add_trust, if_pos (List.any_eq_true.mpr h)]

theorem add_trust_not_found (l : Ledger) (g a : Int) (an : String) (b : Int)
    (bn nw : String) (h : ¬ ∃ t ∈ l.trusts, trustMatches t g a b) :
    add_trust l g a an b bn nw =
      ({ l with trusts := l.trusts ++ [⟨g, a, an, b, bn, nw⟩] }, true) := by
  rw [add_trust, if_neg (fun hc => h (List.any_eq_true.mp hc))]

theorem add_trust_creates (l : Ledger) (g a : Int) (an : String) (b : Int)
    (bn nw : String) :
    ∃ t ∈ (add_trust l g a an b bn nw).1.trusts, trustMatches t g a b := by
  by_cases h : ∃ t ∈ l.trusts, trustMatches t g a b
  · rw [add_trust_found l g a an b bn nw h]; exact h
  · rw [add_trust_not_found l g a an b bn nw h]
    exact ⟨⟨g, a, an, b, bn, nw⟩, by simp, by simp [trustMatches]⟩

/-- C1: `record_trust` with an existing natural key `(g, a, b)` is a
no-op on the whole store (ledger and file untouched); with a fresh key
it appends exactly one new edge at the end of `trusts` (groups
untouched) and saves; a second call with the same key changes nothing,
leaving exactly one edge with that key, carrying the first call's names
and timestamp. -/
theorem add_trust_dedup_c1 (l : Ledger) (d : Disk) (g a : Int) (an : String)
    (b : Int) (bn nw an2 bn2 nw2 : String) :
    ((∃ t ∈ l.trusts, trustMatches t g a b) →
      stepStore (l, d) (Op.addTrust g a an b bn nw) = (l, d)) ∧
    ((¬ ∃ t ∈ l.trusts, trustMatches t g a b) →
      (add_trust l g a an b bn nw).1.trusts = l.trusts ++ [⟨g, a, an, b, bn, nw⟩] ∧
      (add_trust l g a an b bn nw).1.groups = l.groups ∧
      (add_trust l g a an b bn nw).2 = true) ∧
    (add_trust (add_trust l g a an b bn nw).1 g a an2 b bn2 nw2 =
      ((add_trust l g a an b bn nw).1, false)) ∧
    ((¬ ∃ t ∈ l.trusts, trustMatches t g a b) →
      (add_trust (add_trust l g a an b bn nw).1 g a an2 b bn2 nw2).1.trusts.filter
          (fun t => trustMatches t g a b) = [⟨g, a, an, b, bn, nw⟩]) := by
  refine ⟨?_, ?_, ?_, ?_⟩
  · intro hex
    have h1 := add_trust_found l g a an b bn nw hex
    simp [stepStore, h1]
  · intro hnex
    rw [add_trust_not_found l g a an b bn nw hnex]
    exact ⟨rfl, rfl, rfl⟩
  · exact add_trust_found _ g a an2 b bn2 nw2 (add_trust_creates l g a an b bn nw)
  · intro hnex
    rw [add_trust_found _ g a an2 b bn2 nw2 (add_trust_creates l g a an b bn nw),
      add_trust_not_found l g a an b bn nw hnex]
    have h1 : l.trusts.filter (fun t => trustMatches t g a b) = [] := by
      rw [List.filter_eq_nil_iff]
      intro t ht hm
      exact hnex ⟨t, ht, hm⟩
    show (l.trusts ++ [(⟨g, a, an, b, bn, nw⟩ : TrustEdge)]).filter _ = _
    rw [List.filter_append, h1]
    simp [trustMatches]

theorem add_trust_dedup_c1_witness :
    stepStore ((⟨[], [⟨5, 1, "A", 2, "B", "t0"⟩]⟩ : Ledger), (none : Disk))
        (Op.addTrust 5 1 "A2" 2 "B2" "t1") =
      ((⟨[], [⟨5, 1, "A", 2, "B", "t0"⟩]⟩ : Ledger), (none : Disk)) ∧
    (add_trust emptyLedger 5 1 "A" 2 "B" "t0").1.trusts = [⟨5, 1, "A", 2, "B", "t0"⟩] ∧
    (add_trust (add_trust emptyLedger 5 1 "A" 2 "B" "t0").1 5 1 "A2" 2 "B2" "t1").1.trusts.filter
        (fun t => trustMatches t 5 1 2) = [⟨5, 1, "A", 2, "B", "t0"⟩] := by
  have h1 := add_trust_dedup_c1 ⟨[], [⟨5, 1, "A", 2, "B", "t0"⟩]⟩ none 5 1 "A" 2 "B" "t0" "A2" "B2" "t1"
  have h2 := add_trust_dedup_c1 emptyLedger none 5 1 "A" 2 "B" "t0" "A2" "B2" "t1"
  have hnex : ¬ ∃ t ∈ emptyLedger.trusts, trustMatches t 5 1 2 := by
    simp [emptyLedger]
  refine ⟨?_, (h2.2.1 hnex).1, h2.2.2.2 hnex⟩
  exact h1.1 ⟨⟨5, 1, "A", 2, "B", "t0"⟩, by simp, by decide⟩

/-- C3: the `groups` mapping holds at most one record per group id
(its key list stays duplicate-free, both after one `upsert_group` and in
every state reachable from a fresh store), and after two `upsert_group`
calls with the same id the single record under that key carries the
second call's name, owner and timestamp. -/
theorem upsert_group_lww_c3 (l : Ledger) (h : (l.groups.map Prod.fst).Nodup)
    (gid : Int) (n1 on1 t1 n2 on2 t2 : String) (o1 o2 : Int) (ops : List Op) :
    ((add_group l gid n1 o1 on1 t1).groups.map Prod.fst).Nodup ∧
    ((add_group (add_group l gid n1 o1 on1 t1) gid n2 o2 on2 t2).groups.filter
        (fun kv => kv.1 == toString gid) = [(toString gid, ⟨n2, o2, on2, t2⟩)]) ∧
    ((runOps (emptyLedger, (none : Disk)) ops).1.groups.map Prod.fst).Nodup := by
  refine ⟨dictInsert_keys_nodup _ _ _ h, ?_,
    runOps_groups_nodup ops emptyLedger none (by simp [emptyLedger])⟩
  show (dictInsert (toString gid) ⟨n2, o2, on2, t2⟩
      (dictInsert (toString gid) ⟨n1, o1, on1, t1⟩ l.groups)).filter _ = _
  exact dictInsert_filter _ _ _ (dictInsert_keys_nodup _ _ _ h)

theorem upsert_group_lww_c3_witness :
    (add_group (add_group emptyLedger 9 "N1" 1 "O1" "t1") 9 "N2" 2 "O2" "t2").groups.filter
        (fun kv => kv.1 == toString (9 : Int)) = [(toString (9 : Int), ⟨"N2", 2, "O2", "t2"⟩)] :=
  (upsert_group_lww_c3 emptyLedger (by simp [emptyLedger]) 9 "N1" "O1" "t1" "N2" "O2" "t2" 1 2 []).2.1

/-- C4: `get_group_trusts` returns exactly the trusts whose `group_id`
is the queried one (never an edge of another group), as a sublist of the
stored sequence, i.e. in original insertion order; being a pure
function of the ledger, it leaves the ledger unchanged. -/
theorem get_group_trusts_spec_c4 (l : Ledger) (g : Int) :
    (∀ t, t ∈ get_group_trusts l g ↔ t ∈ l.trusts ∧ t.group_id = g) ∧
    (get_group_trusts l g).Sublist l.trusts := by
  constructor
  · intro t
    simp [get_group_trusts, List.mem_filter]
  · exact List.filter_sublist l.trusts

theorem get_group_trusts_spec_c4_witness :
    (⟨-111, 100, "Owner1", 200, "Member1", "t1"⟩ : TrustEdge) ∈
        get_group_trusts ⟨[], [⟨-111, 100, "Owner1", 200, "Member1", "t1"⟩,
          ⟨-222, 300, "Owner2", 400, "Member3", "t2"⟩]⟩ (-111) ↔
      (⟨-111, 100, "Owner1", 200, "Member1", "t1"⟩ : TrustEdge) ∈
        ([⟨-111, 100, "Owner1", 200, "Member1", "t1"⟩,
          ⟨-222, 300, "Owner2", 400, "Member3", "t2"⟩] : List TrustEdge) ∧
      (-111 : Int) = -111 :=
  (get_group_trusts_spec_c4 ⟨[], [⟨-111, 100, "Owner1", 200, "Member1", "t1"⟩,
    ⟨-222, 300, "Owner2", 400, "Member3", "t2"⟩]⟩ (-111)).1
    ⟨-111, 100, "Owner1", 200, "Member1", "t1"⟩

/-- C5: `get_user_trusts` returns exactly the trusts whose `truster_id`
is the queried user, across all groups, as a sublist of the stored
sequence, i.e. in original insertion order; it is a pure read. -/
theorem get_user_trusts_spec_c5 (l : Ledger) (u : Int) :
    (∀ t, t ∈ get_user_trusts l u ↔ t ∈ l.trusts ∧ t.truster_id = u) ∧
    (get_user_trusts l u).Sublist l.trusts := by
  constructor
  · intro t
    simp [get_user_trusts, List.mem_filter]
  · exact List.filter_sublist l.trusts

theorem get_user_trusts_spec_c5_witness :
    (⟨-111, 100, "Owner1", 200, "Member1", "t1"⟩ : TrustEdge) ∈
        get_user_trusts ⟨[], [⟨-111, 100, "Owner1", 200, "Member1", "t1"⟩,
          ⟨-222, 300, "Owner2", 400, "Member3", "t2"⟩]⟩ 100 ↔
      (⟨-111, 100, "Owner1", 200, "Member1", "t1"⟩ : TrustEdge) ∈
        ([⟨-111, 100, "Owner1", 200, "Member1", "t1"⟩,
          ⟨-222, 300, "Owner2", 400, "Member3", "t2"⟩] : List TrustEdge) ∧
      (100 : Int) = 100 :=
  (get_user_trusts_spec_c5 ⟨[], [⟨-111, 100, "Owner1", 200, "Member1", "t1"⟩,
    ⟨-222, 300, "Owner2", 400, "Member3", "t2"⟩]⟩ 100).1
    ⟨-111, 100, "Owner1", 200, "Member1", "t1"⟩

/-- C9: `add_group` only touches the record stored under its own
stringified group id: the trusts sequence is unchanged (so both query
operations give the same results before and after), and lookup of any
other key in the groups mapping is unchanged. -/
theorem add_group_frame_c9 (l : Ledger) (gid : Int) (gn : String) (oid : Int)
    (onm nw : String) :
    (add_group l gid gn oid onm nw).trusts = l.trusts ∧
    (∀ k, k ≠ toString gid →
      lookupGroup (add_group l gid gn oid onm nw).groups k = lookupGroup l.groups k) ∧
    (∀ g : Int, get_group_trusts (add_group l gid gn oid onm nw) g = get_group_trusts l g) ∧
    (∀ u : Int, get_user_trusts (add_group l gid gn oid onm nw) u = get_user_trusts l u) := by
  refine ⟨rfl, ?_, fun g => rfl, fun u => rfl⟩
  intro k hk
  exact lookupGroup_dictInsert_ne (toString gid) k _ l.groups hk

theorem add_group_frame_c9_witness :
    (add_group ⟨[("7", ⟨"G7", 1, "O7", "t0"⟩)], [⟨7, 1, "O7", 2, "M", "t0"⟩]⟩
        9 "G9" 3 "O9" "t1").trusts = [⟨7, 1, "O7", 2, "M", "t0"⟩] ∧
    lookupGroup (add_group ⟨[("7", ⟨"G7", 1, "O7", "t0"⟩)], [⟨7, 1, "O7", 2, "M", "t0"⟩]⟩
        9 "G9" 3 "O9" "t1").groups "7" =
      lookupGroup [("7", ⟨"G7", 1, "O7", "t0"⟩)] "7" := by
  have h := add_group_frame_c9 ⟨[("7", ⟨"G7", 1, "O7", "t0"⟩)], [⟨7, 1, "O7", 2, "M", "t0"⟩]⟩
    9 "G9" 3 "O9" "t1"
  exact ⟨h.1, h.2.1 "7" (by decide)⟩

/-- C10: `record_trust` never consults the groups mapping: its result on
the trusts sequence and its save decision depend only on the stored
trusts, it leaves the groups mapping unchanged, and an edge can be
recorded (and then queried) for a group id that was never registered. -/
theorem add_trust_no_groups_c10 (l1 l2 : Ledger) (h : l1.trusts = l2.trusts)
    (g a : Int) (an : String) (b : Int) (bn nw : String) :
    ((add_trust l1 g a an b bn nw).1.trusts = (add_trust l2 g a an b bn nw).1.trusts ∧
     (add_trust l1 g a an b bn nw).2 = (add_trust l2 g a an b bn nw).2) ∧
    (add_trust l1 g a an b bn nw).1.groups = l1.groups ∧
    (lookupGroup emptyLedger.groups (toString g) = none ∧
     get_group_trusts (add_trust emptyLedger g a an b bn nw).1 g ≠ []) := by
  refine ⟨⟨?_, ?_⟩, add_trust_groups l1 g a an b bn nw, rfl, ?_⟩
  · rw [add_trust, add_trust, h]
    by_cases hany : l2.trusts.any (fun t => trustMatches t g a b) <;> simp [hany, h]
  · rw [add_trust, add_trust, h]
    by_cases hany : l2.trusts.any (fun t => trustMatches t g a b) <;> simp [hany]
  · rw [add_trust_not_found emptyLedger g a an b bn nw (by simp [emptyLedger])]
    simp [get_group_trusts, emptyLedger, trustMatches]

theorem add_trust_no_groups_c10_witness :
    ((add_trust ⟨[("5", ⟨"G", 9, "O", "t"⟩)], []⟩ 8 1 "A" 2 "B" "t1").1.trusts =
      (add_trust emptyLedger 8 1 "A" 2 "B" "t1").1.trusts ∧
     (add_trust ⟨[("5", ⟨"G", 9, "O", "t"⟩)], []⟩ 8 1 "A" 2 "B" "t1").2 =
      (add_trust emptyLedger 8 1 "A" 2 "B" "t1").2) ∧
    (add_trust ⟨[("5", ⟨"G", 9, "O", "t"⟩)], []⟩ 8 1 "A" 2 "B" "t1").1.groups =
      [("5", ⟨"G", 9, "O", "t"⟩)] ∧
    (lookupGroup emptyLedger.groups (toString (8 : Int)) = none ∧
     get_group_trusts (add_trust emptyLedger 8 1 "A" 2 "B" "t1").1 8 ≠ []) :=
  add_trust_no_groups_c10 ⟨[("5", ⟨"G", 9, "O", "t"⟩)], []⟩ emptyLedger rfl 8 1 "A" 2 "B" "t1"

/-- C6: starting from a store whose file is in sync with its ledger
(in particular a fresh store), after any sequence of `upsert_group` and
`record_trust` calls with all saves succeeding, a fresh instance opened
against the same file reads back exactly the serialization of the
store's final in-memory ledger, and that document decodes to identical
groups and trusts collections. -/
theorem persistence_roundtrip_c6 (l : Ledger) (d : Disk) (h : inSync l d)
    (ops : List Op) :
    _load_data (runOps (l, d) ops).2 = encodeLedger (runOps (l, d) ops).1 ∧
    decodeLedger (_load_data (runOps (l, d) ops).2) = some (runOps (l, d) ops).1 := by
  have hs := runOps_inSync ops l d h
  exact ⟨hs, by rw [hs]; exact decodeLedger_encode _⟩

theorem persistence_roundtrip_c6_witness :
    _load_data (runOps (emptyLedger, (none : Disk))
        [Op.addGroup (-123456) "Test Group" 111111 "Owner" "t0",
         Op.addTrust (-123456) 111111 "Owner" 222222 "Member" "t1"]).2 =
      encodeLedger (runOps (emptyLedger, (none : Disk))
        [Op.addGroup (-123456) "Test Group" 111111 "Owner" "t0",
         Op.addTrust (-123456) 111111 "Owner" 222222 "Member" "t1"]).1 ∧
    decodeLedger (_load_data (runOps (emptyLedger, (none : Disk))
        [Op.addGroup (-123456) "Test Group" 111111 "Owner" "t0",
         Op.addTrust (-123456) 111111 "Owner" 222222 "Member" "t1"]).2) =
      some (runOps (emptyLedger, (none : Disk))
        [Op.addGroup (-123456) "Test Group" 111111 "Owner" "t0",
         Op.addTrust (-123456) 111111 "Owner" 222222 "Member" "t1"]).1 :=
  persistence_roundtrip_c6 emptyLedger none rfl
    [Op.addGroup (-123456) "Test Group" 111111 "Owner" "t0",
     Op.addTrust (-123456) 111111 "Owner" 222222 "Member" "t1"]

/-- C7: opening a store against a nonexistent file yields the ledger
with an empty groups mapping and an empty trusts sequence. -/
theorem init_empty_c7 :
    _load_data none = encodeLedger emptyLedger ∧
    decodeLedger (_load_data none) = some emptyLedger ∧
    emptyLedger.groups = [] ∧ emptyLedger.trusts = [] :=
  ⟨rfl, rfl, rfl, rfl⟩

/-- C8: in every state reachable from a fresh store, each key of the
groups mapping is the stringified decimal form of an integer id
(a negative id such as `-123456` giving the key `"-123456"`), while each
trusts entry serializes its `group_id` as a JSON integer — the
string-key/integer-value asymmetry is preserved by every operation. -/
theorem key_asymmetry_c8 (ops : List Op) :
    keysStringified (runOps (emptyLedger, (none : Disk)) ops).1 ∧
    (∀ t ∈ (runOps (emptyLedger, (none : Disk)) ops).1.trusts,
      jsonGetItem (encodeEdge t) "group_id" = Except.ok (Json.int t.group_id)) ∧
    (add_group emptyLedger (-123456) "Test Group" 111111 "Test Owner" "t0").groups =
      [("-123456", ⟨"Test Group", 111111, "Test Owner", "t0"⟩)] := by
  refine ⟨runOps_keysStringified ops emptyLedger none ?_, fun t _ => rfl, ?_⟩
  · intro kv hkv
    simp [emptyLedger] at hkv
  · show dictInsert (toString (-123456 : Int)) _ [] = _
    rw [dictInsert]
    decide

theorem key_asymmetry_c8_witness :
    (∃ i : Int, ("7" : String) = toString i) ∧
    jsonGetItem (encodeEdge ⟨7, 1, "A", 2, "B", "t1"⟩) "group_id" =
      Except.ok (Json.int 7) := by
  have h := key_asymmetry_c8 [Op.addGroup 7 "G" 1 "O" "t0",
    Op.addTrust 7 1 "A" 2 "B" "t1"]
  have h1 : ∀ kv ∈ (runOps (emptyLedger, (none : Disk))
      [Op.addGroup 7 "G" 1 "O" "t0", Op.addTrust 7 1 "A" 2 "B" "t1"]).1.groups,
      ∃ i : Int, kv.1 = toString i := h.1
  refine ⟨h1 ("7", ⟨"G", 1, "O", "t0"⟩) ?_, h.2.1 ⟨7, 1, "A", 2, "B", "t1"⟩ ?_⟩ <;> decide

/-- C2 (counterexample to the claim as stated): a file holding the valid
JSON document \x7b\x7d does not "fail to parse", so `_load_data` keeps it
as-is instead of falling back: the loaded data is neither the empty
ledger nor any loaded `Ledger` (it fails the shape check), and a
subsequent `record_trust` raises `KeyError: trusts` rather than
working — so the store does not "always produce a usable
empty-or-loaded Ledger". -/
theorem load_shape_gap_c2_cex :
    _load_data (some (some (Json.obj []))) = Json.obj [] ∧
    decodeLedger (Json.obj []) = none ∧
    Json.obj [] ≠ encodeLedger emptyLedger ∧
    addTrustRaw (_load_data (some (some (Json.obj [])))) (-123456) 111111 "Owner"
        222222 "Member" "t0" = Except.error "KeyError: trusts" ∧
    decodeLedger emptyData = some emptyLedger := by
  refine ⟨rfl, rfl, ?_, rfl, rfl⟩
  intro hcontra
  injection hcontra with h2
  exact List.noConfusion h2

/-- C2 (amended): `open` itself never fails: an absent file or one that
is not valid JSON falls back to the empty ledger document (which is the
serialization of the empty `Ledger`), while any document that parses as
JSON is used as-is, whether or not it matches the Ledger shape; on data
matching the Ledger shape — in particular anything the store itself
wrote — subsequent operations work, refining the typed operations. -/
theorem load_fallback_c2_amended (j : Json) (l : Ledger) (g a : Int)
    (an : String) (b : Int) (bn nw : String) (gid : Int) (gn : String)
    (oid : Int) (onm : String) :
    _load_data none = emptyData ∧
    _load_data (some none) = emptyData ∧
    _load_data (some (some j)) = j ∧
    emptyData = encodeLedger emptyLedger ∧
    addTrustRaw (encodeLedger l) g a an b bn nw =
      Except.ok (encodeLedger (add_trust l g a an b bn nw).1,
                 (add_trust l g a an b bn nw).2) ∧
    addGroupRaw (encodeLedger l) gid gn oid onm nw =
      Except.ok (encodeLedger (add_group l gid gn oid onm nw), true) :=
  ⟨rfl, rfl, rfl, rfl, addTrustRaw_encode l g a an b bn nw,
   addGroupRaw_encode l gid gn oid onm nw⟩

end TrustStorage
